import Mathlib

/-!
Verification development for the cursorhub analytics core
(`src/cursorhub/analytics.py`).

The event store is modelled as a list of events (append order = id order).
A `none` store models a storage-layer failure (for example the database file
being unavailable or corrupt): every public operation wraps its body in
`Option` and falls back to its documented default, mirroring the blanket
`try/except` around every function in the source.

Timestamps are ISO-8601 strings compared lexicographically, which is exactly
how SQLite compares TEXT columns (memcmp / BINARY collation) and agrees with
chronological order for fixed-format ISO strings.

Metadata blobs are modelled by `Blob`: either a parsed JSON object (a list of
key/value fields, as written by `json.dumps` in `log_event`) or `malformed`,
an unparseable blob.  SQLite's `json_extract` raises an error on a malformed
blob, and Python's `json.loads` raises `JSONDecodeError`; both paths are
modelled as `Option.none` of the surrounding body.

Rating averages: SQLite's `AVG(CAST(... AS REAL))` is modelled over `ℚ`, and
Python's `round(x, 1)` (correctly-rounded, ties to even) is modelled by
`round1`.  Every concrete value this development evaluates `round1` on is
exactly representable in binary floating point, so the rational model agrees
with the floating-point computation of the source there.
-/

attribute [local semireducible] Rat.ofScientific Rat.mul Rat.inv Rat.add Rat.sub

/-- Lexicographic comparison of code-point lists.  For valid UTF-8 this
agrees with byte-wise `memcmp`, which is how SQLite's BINARY collation
compares TEXT values. -/
def charListLt : List Char → List Char → Bool
  | _, [] => false
  | [], _ :: _ => true
  | a :: as, b :: bs =>
      if a.toNat < b.toNat then true
      else if b.toNat < a.toNat then false
      else charListLt as bs

/-- SQLite TEXT comparison `a < b` (BINARY collation). -/
def strLt (a b : String) : Bool := charListLt a.data b.data

/-- A JSON scalar value stored in a metadata object. -/
inductive MetaVal where
  | num (q : ℚ)
  | str (s : String)
  | null
deriving DecidableEq, Repr

/-- A stored metadata blob: a parsed JSON object or an unparseable blob. -/
inductive Blob where
  | malformed
  | obj (fields : List (String × MetaVal))
deriving DecidableEq, Repr

/-- One row of the `events` table.  The integer id is the position in the
list and is not used by any business logic. -/
structure Event where
  timestamp : String
  event : String
  prompt_filename : Option String
  project_path : Option String
  meta : Option Blob
deriving DecidableEq, Repr

/-- The result shape of `get_prompt_stats`. -/
structure PromptStats where
  times_used : Nat
  last_used : Option String
  avg_rating : Option ℚ
  rating_count : Nat
  edit_count : Nat
  projects : List String
deriving DecidableEq, Repr

/-- `_empty_stats()` — the all-zero/null stats dict. -/
def emptyStats : PromptStats :=
  { times_used := 0, last_used := none, avg_rating := none,
    rating_count := 0, edit_count := 0, projects := [] }

/-- The result shape of `get_overall_stats`. -/
structure OverallStats where
  total_projects_created : Nat
  total_prompts_used : Nat
  total_prompt_applications : Nat
  most_used_prompt : Option String
  avg_rating_all : Option ℚ
  events_last_30_days : Nat
deriving DecidableEq, Repr

/-- The per-row result shape of `get_recent_activity`. -/
structure ActivityEntry where
  timestamp : String
  event : String
  prompt_filename : Option String
  project_path : Option String
  meta : List (String × MetaVal)
deriving DecidableEq, Repr

/-- The per-row result shape of `get_pending_feedback`. -/
structure PendingEntry where
  prompt_filename : String
  project_path : String
  project_name : String
  created_at : String
deriving DecidableEq, Repr

/-- Lookup of a key in a parsed JSON object (Python `dict` access). -/
def lookupField (fields : List (String × MetaVal)) (k : String) : Option MetaVal :=
  (fields.find? (fun p => p.1 == k)).map (·.2)

/-- SQLite `json_extract(meta, '$.rating')`.  Returns `none` on a malformed
blob (SQLite raises "malformed JSON"); returns `some none` (SQL NULL) when
the meta column is NULL, the key is absent, or the key holds JSON null. -/
def jsonExtractRating : Option Blob → Option (Option MetaVal)
  | none => some none
  | some Blob.malformed => none
  | some (Blob.obj fields) =>
      match lookupField fields "rating" with
      | none => some none
      | some MetaVal.null => some none
      | some v => some (some v)

/-- Numeric value of the longest numeric prefix of a digit list. -/
def digitsToNat : List Char → Nat → Nat
  | [], acc => acc
  | c :: cs, acc =>
      if c.isDigit then digitsToNat cs (acc * 10 + (c.toNat - 48)) else acc

/-- SQLite `CAST(text AS REAL)`: value of the leading numeric prefix
(optional sign, digits, optional decimal fraction), 0 when there is none. -/
def castStringReal (s : String) : ℚ :=
  let cs := s.toList
  let (sgn, cs') : ℚ × List Char :=
    match cs with
    | '-' :: rest => (-1, rest)
    | '+' :: rest => (1, rest)
    | _ => (1, cs)
  let intPart := digitsToNat (cs'.takeWhile (·.isDigit)) 0
  let rest := cs'.dropWhile (·.isDigit)
  let fracVal : ℚ :=
    match rest with
    | '.' :: frac =>
        let fd := frac.takeWhile (·.isDigit)
        (digitsToNat fd 0 : ℚ) / (10 ^ fd.length : ℚ)
    | _ => 0
  sgn * ((intPart : ℚ) + fracVal)

/-- SQLite `CAST(v AS REAL)` on a JSON scalar. -/
def castReal : MetaVal → ℚ
  | MetaVal.num q => q
  | MetaVal.str s => castStringReal s
  | MetaVal.null => 0

/-- Python `json.loads(meta) if meta else {}`: `none` models the raised
`JSONDecodeError` on a malformed blob. -/
def parseMeta : Option Blob → Option (List (String × MetaVal))
  | none => some []
  | some Blob.malformed => none
  | some (Blob.obj fields) => some fields

/-- Round half to even (the rounding of Python's `round`). -/
def roundHalfEven (q : ℚ) : ℤ :=
  if q - ⌊q⌋ < 1/2 then ⌊q⌋
  else if q - ⌊q⌋ > 1/2 then ⌊q⌋ + 1
  else if ⌊q⌋ % 2 = 0 then ⌊q⌋ else ⌊q⌋ + 1

/-- Python `round(x, 1)`. -/
def round1 (q : ℚ) : ℚ := (roundHalfEven (q * 10) : ℚ) / 10

/-- SQLite `MAX(timestamp)` over a list of TEXT values (NULL when empty). -/
def maxTs (l : List String) : Option String :=
  l.foldl
    (fun acc t =>
      match acc with
      | none => some t
      | some m => some (if strLt m t then t else m))
    none

/-- Append-if-absent, mirroring `if x not in l: l.append(x)`. -/
def addDistinct (acc : List String) (x : String) : List String :=
  if x ∈ acc then acc else acc ++ [x]

/-- First-occurrence deduplication (SQLite `SELECT DISTINCT` scan order,
and the accumulation loop of `get_all_prompt_stats`). -/
def distinctL (l : List String) : List String := l.foldl addDistinct []

/-- Split a code-point list on a separator character. -/
def splitOnChar (sep : Char) : List Char → List (List Char)
  | [] => [[]]
  | c :: cs =>
      let r := splitOnChar sep cs
      if c == sep then [] :: r
      else
        match r with
        | [] => [[c]]
        | w :: ws => (c :: w) :: ws

/-- Python `Path(p).name`: the last non-empty path component. -/
def pathBasename (p : String) : String :=
  let comps := (splitOnChar '/' p.data).map String.mk
  ((comps.filter (fun c => ¬ c = "")).getLast?).getD ""

/-- `meta.get("project_name", Path(project_path).name)` — producers store
`project_name` as a string (§6 of the spec). -/
def displayName (fields : List (String × MetaVal)) (pp : String) : String :=
  match lookupField fields "project_name" with
  | some (MetaVal.str s) => s
  | _ => pathBasename pp

/-- The event row built by `log_event`: `json.dumps(meta) if meta else None`. -/
def mkEvent (ts ev : String) (pf pp : Option String)
    (meta : List (String × MetaVal)) : Event :=
  { timestamp := ts, event := ev, prompt_filename := pf, project_path := pp,
    meta := if meta.isEmpty then none else some (Blob.obj meta) }

/-- `log_event`: appends one row; on a failed store the write is dropped
(the `except: pass` branch) and the call still returns normally. -/
def log_event (store : Option (List Event)) (ts ev : String)
    (pf pp : Option String) (meta : List (String × MetaVal)) :
    Option (List Event) :=
  match store with
  | none => none
  | some evs => some (evs ++ [mkEvent ts ev pf pp meta])

/-- The arguments of one `log_event` call. -/
structure LogArgs where
  ts : String
  ev : String
  pf : Option String
  pp : Option String
  meta : List (String × MetaVal)
deriving DecidableEq, Repr

/-- A sequence of `log_event` calls against an initially empty store. -/
def runAppends (calls : List LogArgs) : Option (List Event) :=
  calls.foldl (fun st a => log_event st a.ts a.ev a.pf a.pp a.meta) (some [])

/-- Row-by-row effectful traversal: the first row whose processing raises
aborts the whole computation (`none`), as a Python `for` loop does. -/
def traverseO (f : α → Option β) : List α → Option (List β)
  | [] => some []
  | x :: xs =>
      match f x, traverseO f xs with
      | some y, some ys => some (y :: ys)
      | _, _ => none

/-- Rows `WHERE event = 'prompt_applied' AND prompt_filename = ?`. -/
def appliedRows (evs : List Event) (fn : String) : List Event :=
  evs.filter (fun e => e.event == "prompt_applied" && e.prompt_filename == some fn)

/-- Rows `WHERE event = 'feedback_given' AND prompt_filename = ?`. -/
def fbRows (evs : List Event) (fn : String) : List Event :=
  evs.filter (fun e => e.event == "feedback_given" && e.prompt_filename == some fn)

/-- Rows `WHERE event = 'prompt_edited' AND prompt_filename = ?`. -/
def editRows (evs : List Event) (fn : String) : List Event :=
  evs.filter (fun e => e.event == "prompt_edited" && e.prompt_filename == some fn)

/-- Body of `get_prompt_stats` (everything inside the `try`).  `none` models
an exception escaping to the `except` handler: here, SQLite's `json_extract`
raising on a malformed metadata blob of a matching `feedback_given` row. -/
def promptStatsBody (evs : List Event) (fn : String) : Option PromptStats := do
  let applied := appliedRows evs fn
  let times_used := applied.length
  let last_used := maxTs (applied.map (·.timestamp))
  let projects := distinctL (applied.filterMap (·.project_path))
  let extracted ← traverseO (fun e => jsonExtractRating e.meta) (fbRows evs fn)
  let ratings := (extracted.filterMap id).map castReal
  let avg : Option ℚ :=
    if ratings.length = 0 then none else some (ratings.sum / (ratings.length : ℚ))
  let avg_rating : Option ℚ :=
    match avg with
    | some a => if a = 0 then none else some (round1 a)
    | none => none
  let rating_count : Nat :=
    match avg with
    | some a => if a = 0 then 0 else ratings.length
    | none => 0
  let edit_count := (editRows evs fn).length
  some { times_used := times_used, last_used := last_used,
         avg_rating := avg_rating, rating_count := rating_count,
         edit_count := edit_count, projects := projects }

/-- `get_prompt_stats`: body wrapped by the `except` fallback to
`_empty_stats`-shaped defaults. -/
def get_prompt_stats (store : Option (List Event)) (fn : String) : PromptStats :=
  ((store.bind (fun evs => promptStatsBody evs fn)).getD emptyStats)

/-- `compute_prompt_health` — direct port of the source. -/
def compute_prompt_health (stats : PromptStats) : String :=
  if stats.times_used = 0 then
    if stats.edit_count > 0 then "unused" else "new"
  else
    match stats.avg_rating with
    | some avg =>
        if avg ≥ 7/2 then "great"
        else if avg ≥ 5/2 then "good"
        else "needs_attention"
    | none =>
        if stats.edit_count > stats.times_used * 2 then "needs_attention"
        else "good"

/-- The health policy exactly as claim C1 words it (spec §4.3), written
independently of the source for comparison. -/
def healthPolicyC1 (stats : PromptStats) : String :=
  if stats.times_used = 0 then
    (if stats.edit_count > 0 then "unused" else "new")
  else
    match stats.avg_rating with
    | some avg =>
        if avg ≥ 7/2 then "great"
        else if avg ≥ 5/2 then "good"
        else "needs_attention"
    | none =>
        if stats.edit_count > 2 * stats.times_used then "needs_attention"
        else "good"

/-- `COUNT(*)` over `prompt_applied` rows of one prompt. -/
def cntApplied (evs : List Event) (fn : String) : Nat := (appliedRows evs fn).length

/-- `MAX(timestamp)` over `prompt_applied` rows of one prompt. -/
def lastApplied (evs : List Event) (fn : String) : Option String :=
  maxTs ((appliedRows evs fn).map (·.timestamp))

/-- The non-null `project_path` values of one prompt's `prompt_applied` rows,
in scan order. -/
def projsOf (evs : List Event) (fn : String) : List String :=
  (appliedRows evs fn).filterMap (·.project_path)

/-- The rating carried by one event, as `CAST(json_extract(...) AS REAL)`
when the blob parses and the key holds a non-null value. -/
def ratingOf (e : Event) : Option ℚ :=
  match jsonExtractRating e.meta with
  | some (some v) => some (castReal v)
  | _ => none

/-- The rating values of one prompt's `feedback_given` rows with a non-null
rating, in scan order. -/
def ratingValsOf (evs : List Event) (fn : String) : List ℚ :=
  (fbRows evs fn).filterMap ratingOf

/-- Mutable-dict update of `get_all_prompt_stats`: `setdefault` +
field assignment; inserts at the end when the key is absent. -/
def setStat : List (String × PromptStats) → String →
    (PromptStats → PromptStats) → List (String × PromptStats)
  | [], fn, f => [(fn, f emptyStats)]
  | p :: m, fn, f => if p.1 == fn then (p.1, f p.2) :: m else p :: setStat m fn f

/-- Dict lookup in the result of `get_all_prompt_stats`. -/
def lookupStat : List (String × PromptStats) → String → Option PromptStats
  | [], _ => none
  | p :: m, fn => if p.1 == fn then some p.2 else lookupStat m fn

/-- Group keys of `GROUP BY prompt_filename` over `prompt_applied` rows with
non-null filename. -/
def appliedFns (evs : List Event) : List String :=
  distinctL ((evs.filter
    (fun e => e.event == "prompt_applied" && e.prompt_filename.isSome)).filterMap
    (·.prompt_filename))

/-- Group keys of the ratings query: `feedback_given` rows with non-null
filename and non-null extracted rating. -/
def ratingFns (evs : List Event) : List String :=
  distinctL ((evs.filter
    (fun e => e.event == "feedback_given" && e.prompt_filename.isSome
      && (ratingOf e).isSome)).filterMap (·.prompt_filename))

/-- Group keys of `GROUP BY prompt_filename` over `prompt_edited` rows with
non-null filename. -/
def editFns (evs : List Event) : List String :=
  distinctL ((evs.filter
    (fun e => e.event == "prompt_edited" && e.prompt_filename.isSome)).filterMap
    (·.prompt_filename))

/-- The `(prompt_filename, project_path)` rows of the projects query:
`prompt_applied` with both references non-null, in scan order. -/
def projRows (evs : List Event) : List (String × String) :=
  evs.filterMap (fun e =>
    if e.event == "prompt_applied" then
      match e.prompt_filename, e.project_path with
      | some fn, some pp => some (fn, pp)
      | _, _ => none
    else none)

/-- The field assignments of the first loop of `get_all_prompt_stats`
(usage counts and last used). -/
def applyUpd (evs : List Event) (fn : String) (s : PromptStats) : PromptStats :=
  { s with times_used := cntApplied evs fn, last_used := lastApplied evs fn }

/-- The field assignments of the ratings loop of `get_all_prompt_stats`.
`rating_count` is assigned unconditionally, `avg_rating` through the same
truthiness test as the single-prompt query. -/
def ratingUpd (evs : List Event) (fn : String) (s : PromptStats) : PromptStats :=
  let rs := ratingValsOf evs fn
  let a := rs.sum / (rs.length : ℚ)
  { s with avg_rating := if a = 0 then none else some (round1 a),
           rating_count := rs.length }

/-- The field assignment of the edit-count loop of `get_all_prompt_stats`. -/
def editUpd (evs : List Event) (fn : String) (s : PromptStats) : PromptStats :=
  { s with edit_count := (editRows evs fn).length }

/-- The append-if-absent step of the projects loop of
`get_all_prompt_stats`. -/
def projUpd (pp : String) (s : PromptStats) : PromptStats :=
  { s with projects := addDistinct s.projects pp }

/-- Body of `get_all_prompt_stats`: the four accumulation loops.  `none`
models SQLite's `json_extract` raising on a malformed metadata blob of a
`feedback_given` row with non-null filename (the ratings query). -/
def allStatsBody (evs : List Event) : Option (List (String × PromptStats)) := do
  let m1 := (appliedFns evs).foldl (fun m fn => setStat m fn (applyUpd evs fn)) []
  let _ ← traverseO (fun e => jsonExtractRating e.meta)
    (evs.filter (fun e => e.event == "feedback_given" && e.prompt_filename.isSome))
  let m2 := (ratingFns evs).foldl (fun m fn => setStat m fn (ratingUpd evs fn)) m1
  let m3 := (editFns evs).foldl (fun m fn => setStat m fn (editUpd evs fn)) m2
  let m4 := (projRows evs).foldl (fun m r => setStat m r.1 (projUpd r.2)) m3
  some m4

/-- `get_all_prompt_stats`: body wrapped by the `except` fallback to `{}`. -/
def get_all_prompt_stats (store : Option (List Event)) :
    List (String × PromptStats) :=
  ((store.bind allStatsBody).getD [])

/-- One `NOT EXISTS` subquery of `get_pending_feedback`. -/
def feedbackExists (evs : List Event) (kind : String)
    (pf pp : Option String) : Bool :=
  evs.any (fun f => f.event == kind && f.prompt_filename == pf
    && f.project_path == pp)

/-- The `WHERE` clause of `get_pending_feedback`: a `prompt_applied` row with
both references non-null, strictly older than the cutoff, and no resolving
`feedback_given` or `feedback_skipped` row for the same pair. -/
def pendingCandidate (evs : List Event) (cutoff : String) (e : Event) : Bool :=
  e.event == "prompt_applied" &&
  e.prompt_filename.isSome &&
  e.project_path.isSome &&
  strLt e.timestamp cutoff &&
  !(feedbackExists evs "feedback_given" e.prompt_filename e.project_path) &&
  !(feedbackExists evs "feedback_skipped" e.prompt_filename e.project_path)

/-- Insertion into a timestamp-descending list. -/
def insertDesc (e : Event) : List Event → List Event
  | [] => [e]
  | x :: xs => if strLt x.timestamp e.timestamp then e :: x :: xs else x :: insertDesc e xs

/-- `ORDER BY timestamp DESC` (any ordering agreeing with the timestamps is
a correct model; ties are unspecified in SQLite). -/
def sortDesc (l : List Event) : List Event := l.foldr insertDesc []

/-- The Python result-building step of `get_pending_feedback` for one row:
parses the metadata blob (raising on a malformed one) and builds the entry. -/
def pendingRowEntry (r : Event) : Option PendingEntry := do
  let fields ← parseMeta r.meta
  let pf ← r.prompt_filename
  let pp ← r.project_path
  some { prompt_filename := pf, project_path := pp,
         project_name := displayName fields pp, created_at := r.timestamp }

/-- Body of `get_pending_feedback`: the filtered, ordered, limited rows, each
mapped through the Python result-building loop, whose `json.loads` raises on
a malformed blob (`none`). -/
def pendingBody (evs : List Event) (cutoff : String) : Option (List PendingEntry) :=
  traverseO pendingRowEntry ((sortDesc (evs.filter (pendingCandidate evs cutoff))).take 3)

/-- `get_pending_feedback`, with the `now - 1 hour` cutoff passed explicitly
as the ISO string SQLite compares each timestamp against. -/
def get_pending_feedback (store : Option (List Event)) (cutoff : String) :
    List PendingEntry :=
  ((store.bind (fun evs => pendingBody evs cutoff)).getD [])

/-- The Python result-building step of `get_recent_activity` for one row. -/
def recentRowEntry (r : Event) : Option ActivityEntry := do
  let fields ← parseMeta r.meta
  some { timestamp := r.timestamp, event := r.event,
         prompt_filename := r.prompt_filename, project_path := r.project_path,
         meta := fields }

/-- Body of `get_recent_activity`: newest `limit` rows, each parsed through
`json.loads`, which raises on a malformed blob (`none`). -/
def recentBody (evs : List Event) (limit : Nat) : Option (List ActivityEntry) :=
  traverseO recentRowEntry ((sortDesc evs).take limit)

/-- `get_recent_activity`: body wrapped by the `except` fallback to `[]`. -/
def get_recent_activity (store : Option (List Event)) (limit : Nat) :
    List ActivityEntry :=
  ((store.bind (fun evs => recentBody evs limit)).getD [])

/-- `GROUP BY ... ORDER BY cnt DESC LIMIT 1`: a prompt with maximal
application count (SQLite leaves the tie-break unspecified; the model keeps
the first group key seen). -/
def mostUsed (evs : List Event) : Option String :=
  (appliedFns evs).foldl
    (fun acc fn =>
      match acc with
      | none => some fn
      | some m => if cntApplied evs fn > cntApplied evs m then some fn else some m)
    none

/-- Body of `get_overall_stats`.  `none` models `json_extract` raising on a
malformed blob of any `feedback_given` row (the global average query). -/
def overallBody (evs : List Event) (cutoff30 : String) : Option OverallStats := do
  let total_created := (evs.filter (fun e => e.event == "project_created")).length
  let total_applications := (evs.filter (fun e => e.event == "prompt_applied")).length
  let unique_prompts := (distinctL
    ((evs.filter (fun e => e.event == "prompt_applied")).filterMap
      (·.prompt_filename))).length
  let extracted ← traverseO (fun e => jsonExtractRating e.meta)
    (evs.filter (fun e => e.event == "feedback_given"))
  let ratings := (extracted.filterMap id).map castReal
  let avg : Option ℚ :=
    if ratings.length = 0 then none else some (ratings.sum / (ratings.length : ℚ))
  let avg_rating_all : Option ℚ :=
    match avg with
    | some a => if a = 0 then none else some (round1 a)
    | none => none
  let recent := (evs.filter (fun e => strLt cutoff30 e.timestamp)).length
  some { total_projects_created := total_created,
         total_prompts_used := unique_prompts,
         total_prompt_applications := total_applications,
         most_used_prompt := mostUsed evs,
         avg_rating_all := avg_rating_all,
         events_last_30_days := recent }

/-- The `except` fallback value of `get_overall_stats`. -/
def defaultOverall : OverallStats :=
  { total_projects_created := 0, total_prompts_used := 0,
    total_prompt_applications := 0, most_used_prompt := none,
    avg_rating_all := none, events_last_30_days := 0 }

/-- `get_overall_stats`, with the 30-day cutoff passed explicitly. -/
def get_overall_stats (store : Option (List Event)) (cutoff30 : String) :
    OverallStats :=
  ((store.bind (fun evs => overallBody evs cutoff30)).getD defaultOverall)

/-- Four `feedback_given` events for prompt `p.md` with ratings 4, 4, 3, 2
(the spec's average-rating test). -/
def c2Log : List Event :=
  [ { timestamp := "2026-01-01T10:00:00", event := "feedback_given",
      prompt_filename := some "p.md", project_path := some "/proj/w",
      meta := some (Blob.obj [("rating", MetaVal.num 4)]) },
    { timestamp := "2026-01-01T11:00:00", event := "feedback_given",
      prompt_filename := some "p.md", project_path := some "/proj/x",
      meta := some (Blob.obj [("rating", MetaVal.num 4)]) },
    { timestamp := "2026-01-01T12:00:00", event := "feedback_given",
      prompt_filename := some "p.md", project_path := some "/proj/y",
      meta := some (Blob.obj [("rating", MetaVal.num 3)]) },
    { timestamp := "2026-01-01T13:00:00", event := "feedback_given",
      prompt_filename := some "p.md", project_path := some "/proj/z",
      meta := some (Blob.obj [("rating", MetaVal.num 2)]) } ]

/-- A two-event log whose newer event carries an unparseable metadata blob. -/
def c3Log : List Event :=
  [ { timestamp := "2026-01-02T00:00:00", event := "prompt_created",
      prompt_filename := some "p.md", project_path := none,
      meta := some Blob.malformed },
    { timestamp := "2026-01-01T00:00:00", event := "project_opened",
      prompt_filename := none, project_path := some "/proj/x",
      meta := none } ]

/-- `c3Log` with the malformed blob replaced by "no metadata" — the log the
claim says the query should behave as if it had. -/
def c3LogTreated : List Event :=
  [ { timestamp := "2026-01-02T00:00:00", event := "prompt_created",
      prompt_filename := some "p.md", project_path := none,
      meta := none },
    { timestamp := "2026-01-01T00:00:00", event := "project_opened",
      prompt_filename := none, project_path := some "/proj/x",
      meta := none } ]

/-- Application of prompt `P` to project `/proj/a` (spec scenario). -/
def c5ApplyA : Event :=
  { timestamp := "2026-01-01T00:00:00", event := "prompt_applied",
    prompt_filename := some "P", project_path := some "/proj/a", meta := none }

/-- Application of prompt `P` to project `/proj/b` (spec scenario). -/
def c5ApplyB : Event :=
  { timestamp := "2026-01-01T01:00:00", event := "prompt_applied",
    prompt_filename := some "P", project_path := some "/proj/b", meta := none }

/-- A later `feedback_skipped` resolving the pair `(P, /proj/a)`. -/
def c5Skip : Event :=
  { timestamp := "2026-01-03T00:00:00", event := "feedback_skipped",
    prompt_filename := some "P", project_path := some "/proj/a", meta := none }

/-- The spec scenario before the skip is logged. -/
def c5Log0 : List Event := [c5ApplyA, c5ApplyB]

/-- The spec scenario after the skip is logged. -/
def c5Log1 : List Event := [c5ApplyA, c5ApplyB, c5Skip]

/-- The `now - 1 hour` cutoff of the scenario; both applications are older. -/
def c5Cutoff : String := "2026-01-02T00:00:00"

/-- An application two hours before "now" (now = 2026-01-01T10:00:00). -/
def c6Old : Event :=
  { timestamp := "2026-01-01T08:00:00", event := "prompt_applied",
    prompt_filename := some "Q.md", project_path := some "/proj/q", meta := none }

/-- An application thirty minutes before "now". -/
def c6Fresh : Event :=
  { timestamp := "2026-01-01T09:30:00", event := "prompt_applied",
    prompt_filename := some "Q.md", project_path := some "/proj/r", meta := none }

/-- The age-cutoff demonstration log. -/
def c6Log : List Event := [c6Old, c6Fresh]

/-- `now - 1 hour` for the age-cutoff demonstration. -/
def c6Cutoff : String := "2026-01-01T09:00:00"

/-- A log whose only event for `p.md` is a `prompt_viewed` — an associated
event that none of the `get_all_prompt_stats` queries group on. -/
def c7Log : List Event :=
  [ { timestamp := "2026-01-01T00:00:00", event := "prompt_viewed",
      prompt_filename := some "p.md", project_path := none, meta := none } ]

/-- A log exercising all four aggregation loops for prompt `p.md`. -/
def c7WLog : List Event :=
  [ { timestamp := "2026-01-01T00:00:00", event := "prompt_applied",
      prompt_filename := some "p.md", project_path := some "/proj/a", meta := none },
    { timestamp := "2026-01-01T01:00:00", event := "prompt_edited",
      prompt_filename := some "p.md", project_path := none, meta := none },
    { timestamp := "2026-01-01T02:00:00", event := "feedback_given",
      prompt_filename := some "p.md", project_path := some "/proj/a",
      meta := some (Blob.obj [("rating", MetaVal.num 3)]) },
    { timestamp := "2026-01-01T03:00:00", event := "prompt_applied",
      prompt_filename := some "q.md", project_path := some "/proj/b", meta := none } ]

/-- The event one `log_event` call writes. -/
def mkEventOf (a : LogArgs) : Event := mkEvent a.ts a.ev a.pf a.pp a.meta

/-- The projects accumulated for one key by the fourth loop of
`get_all_prompt_stats`. -/
def rowsFor (fn : String) (rows : List (String × String)) : List String :=
  rows.filterMap (fun r => if r.1 == fn then some r.2 else none)

/-- The value of `get_prompt_stats` on an intact store with no malformed
metadata among the prompt's `feedback_given` rows, written without the
error monad (proved equal to the wrapped body in `get_prompt_stats_eq_pure`). -/
def promptStatsPure (evs : List Event) (fn : String) : PromptStats :=
  let rs := ratingValsOf evs fn
  let avgOp : Option ℚ :=
    if rs.length = 0 then none else some (rs.sum / (rs.length : ℚ))
  { times_used := cntApplied evs fn,
    last_used := lastApplied evs fn,
    avg_rating :=
      match avgOp with
      | some a => if a = 0 then none else some (round1 a)
      | none => none,
    rating_count :=
      match avgOp with
      | some a => if a = 0 then 0 else rs.length
      | none => 0,
    edit_count := (editRows evs fn).length,
    projects := distinctL (projsOf evs fn) }

/-- A log whose `feedback_given` rows for `p.md` include one malformed blob
next to one well-formed rating. -/
def c3FbLog : List Event :=
  [ { timestamp := "2026-01-01T00:00:00", event := "feedback_given",
      prompt_filename := some "p.md", project_path := some "/proj/a",
      meta := some Blob.malformed },
    { timestamp := "2026-01-01T01:00:00", event := "feedback_given",
      prompt_filename := some "p.md", project_path := some "/proj/b",
      meta := some (Blob.obj [("rating", MetaVal.num 4)]) } ]

/-- Claim C1: `compute_prompt_health` implements exactly the spec's policy,
in the spec's order, for every stats input. -/
theorem compute_prompt_health_eq_policy (s : PromptStats) :
    compute_prompt_health s = healthPolicyC1 s := by
  unfold compute_prompt_health healthPolicyC1
  rw [Nat.mul_comm]

theorem traverseO_eq_none_of_mem (f : α → Option β) {l : List α} {x : α}
    (hx : x ∈ l) (hfx : f x = none) : traverseO f l = none := by
  induction l with
  | nil => cases hx
  | cons a t ih =>
    rcases List.mem_cons.mp hx with rfl | hm
    · rw [traverseO, hfx]
    · rw [traverseO, ih hm]
      cases f a <;> rfl

theorem traverseO_eq_some (f : α → Option β) {l : List α} {ys : List β}
    (h : traverseO f l = some ys) :
    ys = l.filterMap f ∧ ∀ x ∈ l, (f x).isSome := by
  induction l generalizing ys with
  | nil =>
    rw [traverseO] at h
    cases h
    simp
  | cons a t ih =>
    rw [traverseO] at h
    cases hfa : f a with
    | none => rw [hfa] at h; cases traverseO f t <;> cases h
    | some y =>
      rw [hfa] at h
      cases ht : traverseO f t with
      | none => rw [ht] at h; cases h
      | some ys' =>
        rw [ht] at h
        cases h
        obtain ⟨h1, h2⟩ := ih ht
        refine ⟨by rw [List.filterMap_cons_some hfa, h1], ?_⟩
        intro x hxm
        rcases List.mem_cons.mp hxm with rfl | hm
        · simp [hfa]
        · exact h2 x hm

theorem traverseO_all_some (f : α → Option β) {l : List α}
    (h : ∀ x ∈ l, (f x).isSome) : traverseO f l = some (l.filterMap f) := by
  induction l with
  | nil => rfl
  | cons a t ih =>
    obtain ⟨y, hy⟩ := Option.isSome_iff_exists.mp (h a (List.mem_cons_self a t))
    rw [traverseO, hy, ih (fun x hx => h x (List.mem_cons_of_mem a hx)),
      List.filterMap_cons_some hy]

theorem mem_of_traverseO_some (f : α → Option β) {l : List α} {ys : List β}
    (h : traverseO f l = some ys) {y : β} (hy : y ∈ ys) :
    ∃ x ∈ l, f x = some y := by
  obtain ⟨h1, _⟩ := traverseO_eq_some f h
  subst h1
  exact List.mem_filterMap.mp hy

theorem charListLt_irrefl (l : List Char) : charListLt l l = false := by
  induction l with
  | nil => rfl
  | cons c cs ih => simp [charListLt, ih]

theorem charListLt_trans {a b c : List Char} (hab : charListLt a b = true)
    (hbc : charListLt b c = true) : charListLt a c = true := by
  induction a generalizing b c with
  | nil =>
    cases b with
    | nil => simp [charListLt] at hab
    | cons y ys =>
      cases c with
      | nil => simp [charListLt] at hbc
      | cons z zs => rfl
  | cons x xs ih =>
    cases b with
    | nil => simp [charListLt] at hab
    | cons y ys =>
      cases c with
      | nil => simp [charListLt] at hbc
      | cons z zs =>
        rw [charListLt] at hab hbc ⊢
        by_cases hxy : x.toNat < y.toNat
        · by_cases hyz : y.toNat < z.toNat
          · simp [Nat.lt_trans hxy hyz]
          · by_cases hzy : z.toNat < y.toNat
            · simp [hyz, hzy] at hbc
            · have hxz : x.toNat < z.toNat := by omega
              simp [hxz]
        · by_cases hyx : y.toNat < x.toNat
          · simp [hxy, hyx] at hab
          · simp only [if_neg hxy, if_neg hyx] at hab
            by_cases hyz : y.toNat < z.toNat
            · have hxz : x.toNat < z.toNat := by omega
              simp [hxz]
            · by_cases hzy : z.toNat < y.toNat
              · simp [hyz, hzy] at hbc
              · simp only [if_neg hyz, if_neg hzy] at hbc
                have hxz : ¬ x.toNat < z.toNat := by omega
                have hzx : ¬ z.toNat < x.toNat := by omega
                simp only [if_neg hxz, if_neg hzx]
                exact ih hab hbc

theorem strLt_irrefl (s : String) : strLt s s = false := charListLt_irrefl s.data

theorem strLt_trans {a b c : String} (hab : strLt a b = true)
    (hbc : strLt b c = true) : strLt a c = true := charListLt_trans hab hbc

theorem strLt_asymm {a b : String} (h : strLt a b = true) : strLt b a = false := by
  cases hba : strLt b a with
  | false => rfl
  | true =>
    have haa := strLt_trans h hba
    rw [strLt_irrefl] at haa
    cases haa

theorem mem_insertDesc {e a : Event} {l : List Event} :
    a ∈ insertDesc e l ↔ a = e ∨ a ∈ l := by
  induction l with
  | nil => simp [insertDesc]
  | cons x xs ih =>
    rw [insertDesc]
    by_cases h : strLt x.timestamp e.timestamp = true
    · simp only [if_pos h, List.mem_cons]
    · simp only [if_neg h, List.mem_cons, ih]
      tauto

theorem mem_sortDesc {l : List Event} {a : Event} : a ∈ sortDesc l ↔ a ∈ l := by
  induction l with
  | nil => simp [sortDesc]
  | cons x xs ih =>
    show a ∈ insertDesc x (sortDesc xs) ↔ _
    rw [mem_insertDesc, ih, List.mem_cons]

theorem pairwise_insertDesc {e : Event} {l : List Event}
    (h : l.Pairwise (fun a b => strLt a.timestamp b.timestamp = false)) :
    (insertDesc e l).Pairwise (fun a b => strLt a.timestamp b.timestamp = false) := by
  induction l with
  | nil => simp [insertDesc]
  | cons x xs ih =>
    rw [insertDesc]
    rcases List.pairwise_cons.mp h with ⟨hx, hxs⟩
    by_cases hlt : strLt x.timestamp e.timestamp = true
    · rw [if_pos hlt]
      refine List.pairwise_cons.mpr ⟨?_, h⟩
      intro b hb
      rcases List.mem_cons.mp hb with rfl | hb
      · exact strLt_asymm hlt
      · cases heb : strLt e.timestamp b.timestamp with
        | false => rfl
        | true =>
          have hxb := strLt_trans hlt heb
          rw [hx b hb] at hxb
          cases hxb
    · rw [if_neg hlt]
      refine List.pairwise_cons.mpr ⟨?_, ih hxs⟩
      intro b hb
      rcases mem_insertDesc.mp hb with rfl | hb
      · exact Bool.eq_false_iff.mpr hlt
      · exact hx b hb

theorem pairwise_sortDesc (l : List Event) :
    (sortDesc l).Pairwise (fun a b => strLt a.timestamp b.timestamp = false) := by
  induction l with
  | nil => simp [sortDesc]
  | cons x xs ih => exact pairwise_insertDesc ih

theorem mem_foldl_addDistinct (l : List String) (acc : List String) (a : String) :
    a ∈ l.foldl addDistinct acc ↔ a ∈ acc ∨ a ∈ l := by
  induction l generalizing acc with
  | nil => simp
  | cons x xs ih =>
    rw [List.foldl_cons, ih]
    unfold addDistinct
    by_cases h : x ∈ acc
    · rw [if_pos h, List.mem_cons]
      constructor
      · rintro (h1 | h1)
        · exact Or.inl h1
        · exact Or.inr (Or.inr h1)
      · rintro (h1 | rfl | h1)
        · exact Or.inl h1
        · exact Or.inl h
        · exact Or.inr h1
    · rw [if_neg h, List.mem_cons]
      simp only [List.mem_append, List.mem_singleton]
      tauto

theorem mem_distinctL {l : List String} {a : String} : a ∈ distinctL l ↔ a ∈ l := by
  rw [distinctL, mem_foldl_addDistinct]
  simp

theorem nodup_foldl_addDistinct (l : List String) (acc : List String)
    (h : acc.Nodup) : (l.foldl addDistinct acc).Nodup := by
  induction l generalizing acc with
  | nil => exact h
  | cons x xs ih =>
    rw [List.foldl_cons]
    apply ih
    unfold addDistinct
    by_cases hx : x ∈ acc
    · rwa [if_pos hx]
    · rw [if_neg hx, List.nodup_append]
      refine ⟨h, List.nodup_singleton x, ?_⟩
      intro a ha hb
      rw [List.mem_singleton] at hb
      exact hx (hb ▸ ha)

theorem nodup_distinctL (l : List String) : (distinctL l).Nodup :=
  nodup_foldl_addDistinct l [] List.nodup_nil

theorem lookupStat_setStat (m : List (String × PromptStats)) (k fn : String)
    (f : PromptStats → PromptStats) :
    lookupStat (setStat m k f) fn =
      if k = fn then some (f ((lookupStat m fn).getD emptyStats))
      else lookupStat m fn := by
  induction m with
  | nil =>
    by_cases h : k = fn <;> simp [setStat, lookupStat, h]
  | cons p m ih =>
    by_cases hpk : p.1 = k <;> by_cases hfn : p.1 = fn
    · have hkfn : k = fn := hpk ▸ hfn
      simp [setStat, lookupStat, hpk, hfn, hkfn]
    · have hkfn : ¬ k = fn := fun h => hfn (hpk.trans h)
      simp [setStat, lookupStat, hpk, hfn, hkfn]
    · have hkfn : ¬ k = fn := fun h => hpk (h ▸ hfn)
      have hfnk : ¬ fn = k := fun h => hkfn h.symm
      simp [setStat, lookupStat, hpk, hfn, hkfn, hfnk]
    · simp [setStat, lookupStat, hpk, hfn, ih]

theorem lookupStat_foldl_setStat (u : String → PromptStats → PromptStats)
    (ks : List String) (m : List (String × PromptStats)) (fn : String)
    (hnd : ks.Nodup) :
    lookupStat (ks.foldl (fun m k => setStat m k (u k)) m) fn =
      if fn ∈ ks then some (u fn ((lookupStat m fn).getD emptyStats))
      else lookupStat m fn := by
  induction ks generalizing m with
  | nil => simp
  | cons k ks ih =>
    rcases List.nodup_cons.mp hnd with ⟨hk, hnd'⟩
    rw [List.foldl_cons, ih (setStat m k (u k)) hnd']
    by_cases hfn : fn ∈ ks
    · have hkfn : ¬ k = fn := fun h => hk (h ▸ hfn)
      rw [if_pos hfn, if_pos (List.mem_cons_of_mem k hfn),
        lookupStat_setStat, if_neg hkfn]
    · rw [if_neg hfn, lookupStat_setStat]
      by_cases hkf : k = fn
      · subst hkf
        rw [if_pos rfl, if_pos (List.mem_cons_self k ks)]
      · rw [if_neg hkf,
          if_neg (by rw [List.mem_cons]; push_neg; exact ⟨fun h => hkf h.symm, hfn⟩)]

theorem lookupStat_foldl_proj (rows : List (String × String))
    (m : List (String × PromptStats)) (fn : String) :
    lookupStat (rows.foldl (fun m r => setStat m r.1 (projUpd r.2)) m) fn =
      match lookupStat m fn with
      | some s => some { s with
          projects := (rowsFor fn rows).foldl addDistinct s.projects }
      | none =>
          if (rowsFor fn rows).isEmpty then none
          else some { emptyStats with
            projects := (rowsFor fn rows).foldl addDistinct [] } := by
  induction rows generalizing m with
  | nil =>
    cases h : lookupStat m fn <;> simp [rowsFor, h]
  | cons r rows ih =>
    rw [List.foldl_cons, ih, lookupStat_setStat]
    by_cases hr : r.1 = fn
    · rw [if_pos hr]
      have hrows : rowsFor fn (r :: rows) = r.2 :: rowsFor fn rows := by
        simp [rowsFor, List.filterMap_cons, hr]
      cases h : lookupStat m fn with
      | some s => simp [h, hrows, projUpd]
      | none => simp [h, hrows, emptyStats, projUpd]
    · rw [if_neg hr]
      have hrows : rowsFor fn (r :: rows) = rowsFor fn rows := by
        simp [rowsFor, List.filterMap_cons, hr]
      rw [hrows]

theorem runAppends_from (calls : List LogArgs) (evs : List Event) :
    calls.foldl (fun st a => log_event st a.ts a.ev a.pf a.pp a.meta) (some evs)
      = some (evs ++ calls.map mkEventOf) := by
  induction calls generalizing evs with
  | nil => simp
  | cons a t ih =>
    rw [List.foldl_cons]
    show t.foldl _ (some (evs ++ [mkEvent a.ts a.ev a.pf a.pp a.meta])) = _
    rw [ih]
    simp [mkEventOf]

/-- Claim C9: the log is append-only — after `N` successful `log_event` calls
the store holds exactly the `N` events built from those calls, in order, and
any later sequence of appends extends the list without changing any field of
a previously written event (the first `N` entries stay literally equal). -/
theorem log_append_only (calls more : List LogArgs) :
    runAppends calls = some (calls.map mkEventOf) ∧
    (calls.map mkEventOf).length = calls.length ∧
    runAppends (calls ++ more) = some (calls.map mkEventOf ++ more.map mkEventOf) := by
  refine ⟨?_, by simp, ?_⟩
  · have h := runAppends_from calls []
    rw [List.nil_append] at h
    exact h
  · have h := runAppends_from (calls ++ more) []
    rw [List.nil_append, List.map_append] at h
    exact h

/-- Claim C4: no public operation raises — on a failed store (`none`, the
modelled storage-layer exception) `log_event` drops the write and returns
normally, and every read operation returns its documented zero/null/empty
default; on an intact store `log_event` appends exactly one row. -/
theorem public_ops_never_raise (ts ev : String) (pf pp : Option String)
    (meta : List (String × MetaVal)) (evs : List Event)
    (fn cutoff cutoff30 : String) (limit : Nat) :
    log_event none ts ev pf pp meta = none ∧
    log_event (some evs) ts ev pf pp meta = some (evs ++ [mkEvent ts ev pf pp meta]) ∧
    get_prompt_stats none fn = emptyStats ∧
    get_all_prompt_stats none = [] ∧
    get_overall_stats none cutoff30 = defaultOverall ∧
    get_recent_activity none limit = [] ∧
    get_pending_feedback none cutoff = [] :=
  ⟨rfl, rfl, rfl, rfl, rfl, rfl, rfl⟩

/-- Counterexample to claim C2: for ratings `[4, 4, 3, 2]` the code returns
`avg_rating = 3.2`, not `3.3` — Python's `round` rounds the tie `3.25` half
to even, not half up. -/
theorem avg_rating_not_three_point_three :
    (get_prompt_stats (some c2Log) "p.md").avg_rating ≠ some (33/10) := by
  decide

/-- Claim C2 as amended: for `feedback_given` ratings `[4, 4, 3, 2]`,
`get_prompt_stats` returns `avg_rating = 3.2` (the mean `3.25` rounded to one
decimal by round-half-to-even) and `rating_count = 4`. -/
theorem avg_rating_of_4_4_3_2 :
    (get_prompt_stats (some c2Log) "p.md").avg_rating = some (16/5) ∧
    (get_prompt_stats (some c2Log) "p.md").rating_count = 4 := by
  refine ⟨by decide, by decide⟩

/-- Counterexample to claim C3: with exactly one unparseable metadata blob in
the log, `get_recent_activity` returns the empty fallback default instead of
the normal result with that event treated as having no metadata. -/
theorem malformed_metadata_not_skipped :
    get_recent_activity (some c3Log) 20 = [] ∧
    get_recent_activity (some c3Log) 20 ≠ get_recent_activity (some c3LogTreated) 20 := by
  refine ⟨rfl, by decide⟩

theorem recentBody_eq_none {evs : List Event} {limit : Nat} {r : Event}
    (hr : r ∈ (sortDesc evs).take limit) (hmal : r.meta = some Blob.malformed) :
    recentBody evs limit = none :=
  traverseO_eq_none_of_mem _ hr (by unfold recentRowEntry; rw [hmal]; rfl)

theorem pendingBody_eq_none {evs : List Event} {cutoff : String} {r : Event}
    (hr : r ∈ (sortDesc (evs.filter (pendingCandidate evs cutoff))).take 3)
    (hmal : r.meta = some Blob.malformed) :
    pendingBody evs cutoff = none :=
  traverseO_eq_none_of_mem _ hr (by unfold pendingRowEntry; rw [hmal]; rfl)

theorem promptStatsBody_eq_none {evs : List Event} {fn : String} {e : Event}
    (he : e ∈ evs) (hev : e.event = "feedback_given")
    (hpf : e.prompt_filename = some fn) (hmal : e.meta = some Blob.malformed) :
    promptStatsBody evs fn = none := by
  have hmem : e ∈ fbRows evs fn :=
    List.mem_filter.mpr ⟨he, by simp [hev, hpf]⟩
  have ht : traverseO (fun e => jsonExtractRating e.meta) (fbRows evs fn) = none :=
    traverseO_eq_none_of_mem _ hmem (by rw [hmal]; rfl)
  unfold promptStatsBody
  rw [ht]
  rfl

/-- Claim C3 as amended: a read query that hits an unparseable metadata blob
returns its whole-query fallback default (empty list / zero stats) — the
blanket `except` catches the `json.loads` / `json_extract` error — rather
than treating that one event as having no metadata.  This happens exactly
when the blob is among the rows the query touches: any of the `limit` newest
events for `get_recent_activity`, a returned row for `get_pending_feedback`,
or a matching `feedback_given` row for `get_prompt_stats`. -/
theorem malformed_metadata_query_fallback (evs : List Event) (limit : Nat)
    (fn cutoff : String) :
    ((∃ r ∈ (sortDesc evs).take limit, r.meta = some Blob.malformed) →
      get_recent_activity (some evs) limit = []) ∧
    ((∃ r ∈ (sortDesc (evs.filter (pendingCandidate evs cutoff))).take 3,
        r.meta = some Blob.malformed) →
      get_pending_feedback (some evs) cutoff = []) ∧
    ((∃ e ∈ evs, e.event = "feedback_given" ∧ e.prompt_filename = some fn ∧
        e.meta = some Blob.malformed) →
      get_prompt_stats (some evs) fn = emptyStats) := by
  refine ⟨?_, ?_, ?_⟩
  · rintro ⟨r, hr, hmal⟩
    show (recentBody evs limit).getD [] = []
    rw [recentBody_eq_none hr hmal]
    rfl
  · rintro ⟨r, hr, hmal⟩
    show (pendingBody evs cutoff).getD [] = []
    rw [pendingBody_eq_none hr hmal]
    rfl
  · rintro ⟨e, he, hev, hpf, hmal⟩
    show (promptStatsBody evs fn).getD emptyStats = emptyStats
    rw [promptStatsBody_eq_none he hev hpf hmal]
    rfl

/-- Witness for the amended C3 at concrete inputs: one malformed blob makes
`get_recent_activity` return `[]` and `get_prompt_stats` return the zero
default. -/
theorem malformed_metadata_query_fallback_witness :
    get_recent_activity (some c3Log) 5 = [] ∧
    get_prompt_stats (some c3FbLog) "p.md" = emptyStats := by
  constructor
  · exact (malformed_metadata_query_fallback c3Log 5 "p.md" "x").1
      ⟨{ timestamp := "2026-01-02T00:00:00", event := "prompt_created",
         prompt_filename := some "p.md", project_path := none,
         meta := some Blob.malformed }, by decide, rfl⟩
  · exact (malformed_metadata_query_fallback c3FbLog 5 "p.md" "x").2.2
      ⟨{ timestamp := "2026-01-01T00:00:00", event := "feedback_given",
         prompt_filename := some "p.md", project_path := some "/proj/a",
         meta := some Blob.malformed }, by decide, rfl, rfl, rfl⟩

/-- Claim C8: for a prompt with zero events in the log, `get_prompt_stats`
returns exactly the all-zero/null/empty record, and (being a total function
of the store) does not raise. -/
theorem prompt_stats_zero_events (evs : List Event) (fn : String)
    (h : ∀ e ∈ evs, ¬ e.prompt_filename = some fn) :
    get_prompt_stats (some evs) fn = emptyStats := by
  have happ : appliedRows evs fn = [] := by
    rw [appliedRows, List.filter_eq_nil_iff]
    intro e he
    simp [h e he]
  have hfb : fbRows evs fn = [] := by
    rw [fbRows, List.filter_eq_nil_iff]
    intro e he
    simp [h e he]
  have hed : editRows evs fn = [] := by
    rw [editRows, List.filter_eq_nil_iff]
    intro e he
    simp [h e he]
  show (promptStatsBody evs fn).getD emptyStats = emptyStats
  unfold promptStatsBody
  rw [happ, hfb, hed]
  rfl

/-- Witness for C8: a prompt absent from a non-empty log gets the zero
record. -/
theorem prompt_stats_zero_events_witness :
    get_prompt_stats (some c5Log0) "Z.md" = emptyStats :=
  prompt_stats_zero_events c5Log0 "Z.md" (by decide)

theorem pendingRowEntry_some {r : Event} {y : PendingEntry}
    (h : pendingRowEntry r = some y) :
    y.created_at = r.timestamp ∧ r.prompt_filename = some y.prompt_filename ∧
      r.project_path = some y.project_path := by
  unfold pendingRowEntry at h
  cases hm : parseMeta r.meta with
  | none => rw [hm] at h; cases h
  | some fields =>
    rw [hm] at h
    cases hpf : r.prompt_filename with
    | none => rw [hpf] at h; cases h
    | some pf =>
      rw [hpf] at h
      cases hpp : r.project_path with
      | none => rw [hpp] at h; cases h
      | some pp =>
        rw [hpp] at h
        cases h
        exact ⟨rfl, rfl, rfl⟩

theorem pendingCandidate_true {evs : List Event} {cutoff : String} {e : Event}
    (h : pendingCandidate evs cutoff e = true) :
    e.event = "prompt_applied" ∧ strLt e.timestamp cutoff = true ∧
    feedbackExists evs "feedback_given" e.prompt_filename e.project_path = false ∧
    feedbackExists evs "feedback_skipped" e.prompt_filename e.project_path = false := by
  simp only [pendingCandidate, Bool.and_eq_true, beq_iff_eq,
    Bool.not_eq_true'] at h
  obtain ⟨⟨⟨⟨⟨h1, h2⟩, h3⟩, h4⟩, h5⟩, h6⟩ := h
  exact ⟨h1, h4, h5, h6⟩

theorem mem_pending_feedback {evs : List Event} {cutoff : String}
    {x : PendingEntry} (hx : x ∈ get_pending_feedback (some evs) cutoff) :
    ∃ e ∈ evs, pendingCandidate evs cutoff e = true ∧
      pendingRowEntry e = some x := by
  have hget : get_pending_feedback (some evs) cutoff
      = (pendingBody evs cutoff).getD [] := rfl
  cases hbody : pendingBody evs cutoff with
  | none => rw [hget, hbody] at hx; cases hx
  | some ys =>
    rw [hget, hbody] at hx
    obtain ⟨r, hr, hry⟩ := mem_of_traverseO_some _ hbody hx
    have hr' : r ∈ sortDesc (evs.filter (pendingCandidate evs cutoff)) :=
      List.take_subset _ _ hr
    have hr'' : r ∈ evs.filter (pendingCandidate evs cutoff) :=
      mem_sortDesc.mp hr'
    obtain ⟨hrevs, hcand⟩ := List.mem_filter.mp hr''
    exact ⟨r, hrevs, hcand, hry⟩

/-- Claim C6: every entry `get_pending_feedback` returns comes from a
`prompt_applied` event strictly older than the `now - 1 hour` cutoff (so a
30-minute-old application never appears while an old-enough one can), the
result is ordered newest-applied-first by timestamp, and at most 3 entries
are returned (`LIMIT 3`). -/
theorem pending_feedback_cutoff_order_limit (evs : List Event) (cutoff : String) :
    (∀ x ∈ get_pending_feedback (some evs) cutoff,
        strLt x.created_at cutoff = true ∧
        ∃ e ∈ evs, e.event = "prompt_applied" ∧
          e.prompt_filename = some x.prompt_filename ∧
          e.project_path = some x.project_path ∧ e.timestamp = x.created_at) ∧
    (get_pending_feedback (some evs) cutoff).Pairwise
      (fun a b => strLt a.created_at b.created_at = false) ∧
    (get_pending_feedback (some evs) cutoff).length ≤ 3 := by
  have hget : get_pending_feedback (some evs) cutoff
      = (pendingBody evs cutoff).getD [] := rfl
  refine ⟨?_, ?_, ?_⟩
  · intro x hx
    obtain ⟨e, hevs, hcand, hrow⟩ := mem_pending_feedback hx
    obtain ⟨hts, hpf, hpp⟩ := pendingRowEntry_some hrow
    obtain ⟨hev, hcut, _, _⟩ := pendingCandidate_true hcand
    refine ⟨by rw [hts]; exact hcut, e, hevs, hev, hpf, hpp, hts.symm⟩
  · cases hbody : pendingBody evs cutoff with
    | none => rw [hget, hbody]; exact List.Pairwise.nil
    | some ys =>
      rw [hget, hbody]
      obtain ⟨hys, _⟩ := traverseO_eq_some _ hbody
      subst hys
      show (List.filterMap pendingRowEntry _).Pairwise _
      rw [List.pairwise_filterMap]
      have hpw := (pairwise_sortDesc (evs.filter (pendingCandidate evs cutoff))).take
        (n := 3)
      refine hpw.imp ?_
      intro a b hab y hy y' hy'
      rw [Option.mem_def] at hy hy'
      rw [(pendingRowEntry_some hy).1, (pendingRowEntry_some hy').1]
      exact hab
  · cases hbody : pendingBody evs cutoff with
    | none => rw [hget, hbody]; decide
    | some ys =>
      rw [hget, hbody]
      obtain ⟨hys, _⟩ := traverseO_eq_some _ hbody
      subst hys
      calc (List.filterMap pendingRowEntry _).length
          ≤ ((sortDesc (evs.filter (pendingCandidate evs cutoff))).take 3).length :=
            List.length_filterMap_le _ _
        _ ≤ 3 := List.length_take_le _ _

/-- Witness for C6 at a concrete log: with the cutoff one hour before "now",
the two-hour-old application appears (and satisfies the age bound) while the
thirty-minute-old one does not. -/
theorem pending_feedback_cutoff_order_limit_witness :
    (strLt ("2026-01-01T08:00:00" : String) c6Cutoff = true ∧
      ∃ e ∈ c6Log, e.event = "prompt_applied" ∧
        e.prompt_filename = some "Q.md" ∧
        e.project_path = some "/proj/q" ∧ e.timestamp = "2026-01-01T08:00:00") ∧
    get_pending_feedback (some c6Log) c6Cutoff =
      [{ prompt_filename := "Q.md", project_path := "/proj/q",
         project_name := "q", created_at := "2026-01-01T08:00:00" }] := by
  constructor
  · exact (pending_feedback_cutoff_order_limit c6Log c6Cutoff).1
      { prompt_filename := "Q.md", project_path := "/proj/q",
        project_name := "q", created_at := "2026-01-01T08:00:00" }
      (by decide)
  · decide

theorem feedbackExists_iff {evs : List Event} {kind : String}
    {pf pp : Option String} :
    feedbackExists evs kind pf pp = true ↔
      ∃ f ∈ evs, f.event = kind ∧ f.prompt_filename = pf ∧ f.project_path = pp := by
  rw [feedbackExists, List.any_eq_true]
  constructor
  · rintro ⟨f, hf, hcond⟩
    simp only [Bool.and_eq_true, beq_iff_eq] at hcond
    exact ⟨f, hf, hcond.1.1, hcond.1.2, hcond.2⟩
  · rintro ⟨f, hf, h1, h2, h3⟩
    exact ⟨f, hf, by simp [h1, h2, h3]⟩

/-- Claim C5: an old-enough `prompt_applied` event with both references
non-null is excluded by the `get_pending_feedback` filter exactly when a
`feedback_given` or `feedback_skipped` event with the same
`(prompt_ref, project_ref)` pair exists in the log — regardless of that
event's own timestamp, which the filter never consults; a resolved pair
never appears in the returned list; and in the spec's scenario, logging a
`feedback_skipped` for `(P, /proj/a)` removes exactly that application while
the distinct pair `(P, /proj/b)` still appears. -/
theorem pending_feedback_exclusion :
    (∀ (evs : List Event) (cutoff : String) (e : Event) (pf pp : String),
        e.event = "prompt_applied" →
        e.prompt_filename = some pf → e.project_path = some pp →
        strLt e.timestamp cutoff = true →
        (pendingCandidate evs cutoff e = false ↔
          ∃ f ∈ evs, (f.event = "feedback_given" ∨ f.event = "feedback_skipped") ∧
            f.prompt_filename = some pf ∧ f.project_path = some pp)) ∧
    (∀ (evs : List Event) (cutoff : String) (x : PendingEntry),
        x ∈ get_pending_feedback (some evs) cutoff →
        ¬ ∃ f ∈ evs, (f.event = "feedback_given" ∨ f.event = "feedback_skipped") ∧
            f.prompt_filename = some x.prompt_filename ∧
            f.project_path = some x.project_path) ∧
    get_pending_feedback (some c5Log0) c5Cutoff =
      [{ prompt_filename := "P", project_path := "/proj/b", project_name := "b",
         created_at := "2026-01-01T01:00:00" },
       { prompt_filename := "P", project_path := "/proj/a", project_name := "a",
         created_at := "2026-01-01T00:00:00" }] ∧
    get_pending_feedback (some c5Log1) c5Cutoff =
      [{ prompt_filename := "P", project_path := "/proj/b", project_name := "b",
         created_at := "2026-01-01T01:00:00" }] := by
  refine ⟨?_, ?_, by decide, by decide⟩
  · intro evs cutoff e pf pp hev hpf hpp hts
    have hcand : pendingCandidate evs cutoff e =
        (!(feedbackExists evs "feedback_given" (some pf) (some pp)) &&
         !(feedbackExists evs "feedback_skipped" (some pf) (some pp))) := by
      simp [pendingCandidate, hev, hpf, hpp, hts]
    rw [hcand]
    have hiff : (!(feedbackExists evs "feedback_given" (some pf) (some pp)) &&
        !(feedbackExists evs "feedback_skipped" (some pf) (some pp))) = false ↔
        (feedbackExists evs "feedback_given" (some pf) (some pp) = true ∨
         feedbackExists evs "feedback_skipped" (some pf) (some pp) = true) := by
      cases feedbackExists evs "feedback_given" (some pf) (some pp) <;>
        cases feedbackExists evs "feedback_skipped" (some pf) (some pp) <;> simp
    rw [hiff, feedbackExists_iff, feedbackExists_iff]
    constructor
    · rintro (⟨f, hf, h1, h2, h3⟩ | ⟨f, hf, h1, h2, h3⟩)
      · exact ⟨f, hf, Or.inl h1, h2, h3⟩
      · exact ⟨f, hf, Or.inr h1, h2, h3⟩
    · rintro ⟨f, hf, h1 | h1, h2, h3⟩
      · exact Or.inl ⟨f, hf, h1, h2, h3⟩
      · exact Or.inr ⟨f, hf, h1, h2, h3⟩
  · intro evs cutoff x hx
    obtain ⟨e, hevs, hcand, hrow⟩ := mem_pending_feedback hx
    obtain ⟨hts, hpf, hpp⟩ := pendingRowEntry_some hrow
    obtain ⟨hev, hcut, hfg, hfs⟩ := pendingCandidate_true hcand
    rintro ⟨f, hf, hk | hk, h2, h3⟩
    · have htrue : feedbackExists evs "feedback_given" e.prompt_filename
          e.project_path = true :=
        feedbackExists_iff.mpr ⟨f, hf, hk, h2.trans hpf.symm, h3.trans hpp.symm⟩
      rw [hfg] at htrue
      cases htrue
    · have htrue : feedbackExists evs "feedback_skipped" e.prompt_filename
          e.project_path = true :=
        feedbackExists_iff.mpr ⟨f, hf, hk, h2.trans hpf.symm, h3.trans hpp.symm⟩
      rw [hfs] at htrue
      cases htrue

/-- Witness for C5 at the spec's scenario: the resolved application
`(P, /proj/a)` is excluded by the filter once the skip is logged, while the
unresolved `(P, /proj/b)` still passes it. -/
theorem pending_feedback_exclusion_witness :
    pendingCandidate c5Log1 c5Cutoff c5ApplyA = false ∧
    pendingCandidate c5Log1 c5Cutoff c5ApplyB = true := by
  constructor
  · exact (pending_feedback_exclusion.1 c5Log1 c5Cutoff c5ApplyA "P" "/proj/a"
      rfl rfl rfl (by decide)).mpr ⟨c5Skip, by decide, Or.inr rfl, rfl, rfl⟩
  · decide

theorem ratings_lists_eq (l : List Event) :
    ((l.filterMap (fun e => jsonExtractRating e.meta)).filterMap id).map castReal
      = l.filterMap ratingOf := by
  induction l with
  | nil => rfl
  | cons e t ih =>
    cases hj : jsonExtractRating e.meta with
    | none => simp [List.filterMap_cons, hj, ratingOf, ih]
    | some ov =>
      cases ov with
      | none => simp [List.filterMap_cons, hj, ratingOf, ih]
      | some v => simp [List.filterMap_cons, hj, ratingOf, ih]

theorem promptStatsBody_eq_pure (evs : List Event) (fn : String)
    (hsome : ∀ e ∈ fbRows evs fn, (jsonExtractRating e.meta).isSome) :
    promptStatsBody evs fn = some (promptStatsPure evs fn) := by
  have hr : ((((fbRows evs fn).filterMap
      (fun e => jsonExtractRating e.meta)).filterMap id).map castReal)
      = ratingValsOf evs fn := ratings_lists_eq (fbRows evs fn)
  unfold promptStatsBody promptStatsPure
  rw [traverseO_all_some _ hsome]
  simp only [Option.bind_eq_bind, Option.some_bind, hr]
  rfl

theorem sum_ge_length (l : List ℚ) (h : ∀ x ∈ l, 1 ≤ x) :
    (l.length : ℚ) ≤ l.sum := by
  induction l with
  | nil => simp
  | cons a t ih =>
    rw [List.sum_cons, List.length_cons]
    push_cast
    have h1 : 1 ≤ a := h a (List.mem_cons_self a t)
    have h2 : (t.length : ℚ) ≤ t.sum := ih (fun x hx => h x (List.mem_cons_of_mem a hx))
    linarith

theorem roundHalfEven_ge_floor (q : ℚ) : ⌊q⌋ ≤ roundHalfEven q := by
  unfold roundHalfEven
  split_ifs <;> omega

theorem round1_ge_one {q : ℚ} (h : 1 ≤ q) : 1 ≤ round1 q := by
  have h10 : (10 : ℚ) ≤ q * 10 := by linarith
  have hfl : (10 : ℤ) ≤ ⌊q * 10⌋ := by
    rw [Int.le_floor]
    push_cast
    exact h10
  have hr : (10 : ℤ) ≤ roundHalfEven (q * 10) :=
    le_trans hfl (roundHalfEven_ge_floor (q * 10))
  have hrq : (10 : ℚ) ≤ (roundHalfEven (q * 10) : ℚ) := by exact_mod_cast hr
  rw [round1, le_div_iff₀ (show (0:ℚ) < 10 by norm_num)]
  linarith

/-- Claim C10: under the rating contract (every `feedback_given` event
carries an integer rating in 1..4), `get_prompt_stats` reports `avg_rating`
as null exactly when `rating_count` is zero, and whenever the prompt has at
least one rated feedback event the reported average is a non-null value at
least 1 — the Python truthiness test on the computed average can never
misreport existing in-contract ratings as absent, because such an average is
never 0. -/
theorem avg_rating_null_iff_no_ratings (evs : List Event) (fn : String)
    (h : ∀ e ∈ evs, e.event = "feedback_given" →
      ∃ n : ℕ, 1 ≤ n ∧ n ≤ 4 ∧
        jsonExtractRating e.meta = some (some (MetaVal.num n))) :
    ((get_prompt_stats (some evs) fn).avg_rating = none ↔
      (get_prompt_stats (some evs) fn).rating_count = 0) ∧
    ((∃ e ∈ evs, e.event = "feedback_given" ∧ e.prompt_filename = some fn) →
      ∃ q, (get_prompt_stats (some evs) fn).avg_rating = some q ∧ 1 ≤ q) := by
  have hsome : ∀ e ∈ fbRows evs fn, (jsonExtractRating e.meta).isSome := by
    intro e he
    obtain ⟨hevs, hcond⟩ := List.mem_filter.mp he
    simp only [Bool.and_eq_true, beq_iff_eq] at hcond
    obtain ⟨n, _, _, heq⟩ := h e hevs hcond.1
    rw [heq]
    rfl
  have hget : get_prompt_stats (some evs) fn = promptStatsPure evs fn := by
    show (promptStatsBody evs fn).getD emptyStats = _
    rw [promptStatsBody_eq_pure evs fn hsome]
    rfl
  rw [hget]
  have hvals : ∀ q ∈ ratingValsOf evs fn, 1 ≤ q := by
    intro q hq
    obtain ⟨e, he, heq⟩ := List.mem_filterMap.mp hq
    obtain ⟨hevs, hcond⟩ := List.mem_filter.mp he
    simp only [Bool.and_eq_true, beq_iff_eq] at hcond
    obtain ⟨n, hn1, _, hjs⟩ := h e hevs hcond.1
    rw [ratingOf, hjs] at heq
    cases heq
    show (1 : ℚ) ≤ (n : ℚ)
    exact_mod_cast hn1
  by_cases hlen : (ratingValsOf evs fn).length = 0
  · constructor
    · simp [promptStatsPure, hlen]
    · rintro ⟨e, hevs, hev, hpf⟩
      have hmem : e ∈ fbRows evs fn :=
        List.mem_filter.mpr ⟨hevs, by simp [hev, hpf]⟩
      obtain ⟨n, _, _, hjs⟩ := h e hevs hev
      have hin : ((n : ℚ)) ∈ ratingValsOf evs fn :=
        List.mem_filterMap.mpr ⟨e, hmem, by rw [ratingOf, hjs]; rfl⟩
      rw [List.length_eq_zero] at hlen
      rw [hlen] at hin
      cases hin
  · have hlpos : 0 < ((ratingValsOf evs fn).length : ℚ) := by
      have := Nat.pos_of_ne_zero hlen
      exact_mod_cast this
    have hsum : ((ratingValsOf evs fn).length : ℚ) ≤ (ratingValsOf evs fn).sum :=
      sum_ge_length _ hvals
    have havg : 1 ≤ (ratingValsOf evs fn).sum / ((ratingValsOf evs fn).length : ℚ) := by
      rw [le_div_iff₀ hlpos]
      linarith
    have hne : ¬ ((ratingValsOf evs fn).sum / ((ratingValsOf evs fn).length : ℚ) = 0) := by
      intro h0
      rw [h0] at havg
      norm_num at havg
    constructor
    · simp [promptStatsPure, hlen, hne]
    · intro _
      refine ⟨round1 ((ratingValsOf evs fn).sum / ((ratingValsOf evs fn).length : ℚ)),
        ?_, round1_ge_one havg⟩
      simp [promptStatsPure, hlen, hne]

/-- Witness for C10 at a concrete in-contract log: the ratings `[4,4,3,2]`
give a non-null average at least 1, consistently with a positive count. -/
theorem avg_rating_null_iff_no_ratings_witness :
    (((get_prompt_stats (some c2Log) "p.md").avg_rating = none ↔
      (get_prompt_stats (some c2Log) "p.md").rating_count = 0)) ∧
    (∃ q, (get_prompt_stats (some c2Log) "p.md").avg_rating = some q ∧ 1 ≤ q) := by
  have h := avg_rating_null_iff_no_ratings c2Log "p.md" (by
    intro e he hev
    simp only [c2Log, List.mem_cons, List.not_mem_nil, or_false] at he
    rcases he with rfl | rfl | rfl | rfl
    · exact ⟨4, by norm_num, by norm_num, by simp [jsonExtractRating, lookupField]⟩
    · exact ⟨4, by norm_num, by norm_num, by simp [jsonExtractRating, lookupField]⟩
    · exact ⟨3, by norm_num, by norm_num, by simp [jsonExtractRating, lookupField]⟩
    · exact ⟨2, by norm_num, by norm_num, by simp [jsonExtractRating, lookupField]⟩)
  refine ⟨h.1, h.2 ?_⟩
  refine ⟨{ timestamp := "2026-01-01T10:00:00", event := "feedback_given",
            prompt_filename := some "p.md", project_path := some "/proj/w",
            meta := some (Blob.obj [("rating", MetaVal.num 4)]) }, ?_, rfl, rfl⟩
  decide


theorem jsonExtract_isSome {b : Option Blob} (h : ¬ b = some Blob.malformed) :
    (jsonExtractRating b).isSome := by
  match b with
  | none => rfl
  | some Blob.malformed => exact absurd rfl h
  | some (Blob.obj fields) =>
    cases hl : lookupField fields "rating" with
    | none => simp [jsonExtractRating, hl]
    | some v => cases v <;> simp [jsonExtractRating, hl]

theorem mem_appliedFns {evs : List Event} {fn : String} :
    fn ∈ appliedFns evs ↔
      ∃ e ∈ evs, e.event = "prompt_applied" ∧ e.prompt_filename = some fn := by
  rw [appliedFns, mem_distinctL]
  constructor
  · intro h
    obtain ⟨e, he, hpf⟩ := List.mem_filterMap.mp h
    obtain ⟨hevs, hcond⟩ := List.mem_filter.mp he
    simp only [Bool.and_eq_true, beq_iff_eq] at hcond
    exact ⟨e, hevs, hcond.1, hpf⟩
  · rintro ⟨e, hevs, hev, hpf⟩
    exact List.mem_filterMap.mpr
      ⟨e, List.mem_filter.mpr ⟨hevs, by simp [hev, hpf]⟩, hpf⟩

theorem appliedRows_eq_nil {evs : List Event} {fn : String}
    (h : fn ∉ appliedFns evs) : appliedRows evs fn = [] := by
  rw [appliedRows, List.filter_eq_nil_iff]
  intro e he hc
  simp only [Bool.and_eq_true, beq_iff_eq] at hc
  exact h (mem_appliedFns.mpr ⟨e, he, hc.1, hc.2⟩)

theorem mem_ratingFns {evs : List Event} {fn : String} :
    fn ∈ ratingFns evs ↔
      ∃ e ∈ evs, e.event = "feedback_given" ∧ e.prompt_filename = some fn ∧
        (ratingOf e).isSome := by
  rw [ratingFns, mem_distinctL]
  constructor
  · intro h
    obtain ⟨e, he, hpf⟩ := List.mem_filterMap.mp h
    obtain ⟨hevs, hcond⟩ := List.mem_filter.mp he
    simp only [Bool.and_eq_true, beq_iff_eq] at hcond
    exact ⟨e, hevs, hcond.1.1, hpf, hcond.2⟩
  · rintro ⟨e, hevs, hev, hpf, hr⟩
    exact List.mem_filterMap.mpr
      ⟨e, List.mem_filter.mpr ⟨hevs, by simp [hev, hpf, hr]⟩, hpf⟩

theorem ratingVals_eq_nil {evs : List Event} {fn : String}
    (h : fn ∉ ratingFns evs) : ratingValsOf evs fn = [] := by
  rw [ratingValsOf, List.filterMap_eq_nil_iff]
  intro e he
  obtain ⟨hevs, hcond⟩ := List.mem_filter.mp he
  simp only [Bool.and_eq_true, beq_iff_eq] at hcond
  cases hr : ratingOf e with
  | none => rfl
  | some q =>
    exact absurd (mem_ratingFns.mpr
      ⟨e, hevs, hcond.1, hcond.2, by rw [hr]; rfl⟩) h

theorem ratingVals_ne_nil {evs : List Event} {fn : String}
    (h : fn ∈ ratingFns evs) : ratingValsOf evs fn ≠ [] := by
  obtain ⟨e, hevs, hev, hpf, hr⟩ := mem_ratingFns.mp h
  obtain ⟨q, hq⟩ := Option.isSome_iff_exists.mp hr
  intro hnil
  have hin : q ∈ ratingValsOf evs fn :=
    List.mem_filterMap.mpr
      ⟨e, List.mem_filter.mpr ⟨hevs, by simp [hev, hpf]⟩, hq⟩
  rw [hnil] at hin
  cases hin

theorem mem_editFns {evs : List Event} {fn : String} :
    fn ∈ editFns evs ↔
      ∃ e ∈ evs, e.event = "prompt_edited" ∧ e.prompt_filename = some fn := by
  rw [editFns, mem_distinctL]
  constructor
  · intro h
    obtain ⟨e, he, hpf⟩ := List.mem_filterMap.mp h
    obtain ⟨hevs, hcond⟩ := List.mem_filter.mp he
    simp only [Bool.and_eq_true, beq_iff_eq] at hcond
    exact ⟨e, hevs, hcond.1, hpf⟩
  · rintro ⟨e, hevs, hev, hpf⟩
    exact List.mem_filterMap.mpr
      ⟨e, List.mem_filter.mpr ⟨hevs, by simp [hev, hpf]⟩, hpf⟩

theorem editRows_eq_nil {evs : List Event} {fn : String}
    (h : fn ∉ editFns evs) : editRows evs fn = [] := by
  rw [editRows, List.filter_eq_nil_iff]
  intro e he hc
  simp only [Bool.and_eq_true, beq_iff_eq] at hc
  exact h (mem_editFns.mpr ⟨e, he, hc.1, hc.2⟩)

theorem rowsFor_projRows (evs : List Event) (fn : String) :
    rowsFor fn (projRows evs) = projsOf evs fn := by
  rw [rowsFor, projRows, List.filterMap_filterMap, projsOf, appliedRows,
    List.filterMap_filter]
  apply List.filterMap_congr
  intro e _
  by_cases hev : e.event = "prompt_applied"
  · cases hpf : e.prompt_filename with
    | none => simp [hev, hpf]
    | some p =>
      cases hpp : e.project_path with
      | none => by_cases hp : p = fn <;> simp [hev, hpf, hpp, hp]
      | some pp => by_cases hp : p = fn <;> simp [hev, hpf, hpp, hp]
  · simp [hev]


theorem avg_ne_zero {evs : List Event} {fn : String}
    (hvals : ∀ q ∈ ratingValsOf evs fn, 1 ≤ q)
    (hnil : ratingValsOf evs fn ≠ []) :
    ¬ ((ratingValsOf evs fn).sum / ((ratingValsOf evs fn).length : ℚ) = 0) := by
  have hlen0 : (ratingValsOf evs fn).length ≠ 0 := by
    simpa [List.length_eq_zero] using hnil
  have hlpos : 0 < ((ratingValsOf evs fn).length : ℚ) := by
    have := Nat.pos_of_ne_zero hlen0
    exact_mod_cast this
  have hsum : ((ratingValsOf evs fn).length : ℚ) ≤ (ratingValsOf evs fn).sum :=
    sum_ge_length _ hvals
  have havg : 1 ≤ (ratingValsOf evs fn).sum / ((ratingValsOf evs fn).length : ℚ) := by
    rw [le_div_iff₀ hlpos]
    linarith
  intro h0
  rw [h0] at havg
  norm_num at havg

/-- Counterexample to claim C7: a `prompt_viewed` event is an associated
event of its prompt, yet `get_all_prompt_stats` has no entry for that prompt
(none of its four grouped queries select the event) while `get_prompt_stats`
still returns a (zero) record the entry was claimed to equal. -/
theorem all_stats_missing_entry :
    lookupStat (get_all_prompt_stats (some c7Log)) "p.md" = none ∧
    c7Log.map Event.prompt_filename = [some "p.md"] ∧
    get_prompt_stats (some c7Log) "p.md" = emptyStats := by
  refine ⟨by decide, by decide, by decide⟩

/-- Claim C7 as amended: for every log whose `feedback_given` metadata is
parseable with in-contract (≥ 1) rating values, and every prompt with at
least one event the batch query groups on (a `prompt_applied`, a
`prompt_edited`, or a rating-bearing `feedback_given`), the entry of
`get_all_prompt_stats` exists and equals `get_prompt_stats` in all six
fields.  (Prompts whose only associated events are of other kinds get no
entry, and an out-of-contract rating averaging to 0 would make the two
`rating_count` computations differ — hence the two hypotheses.) -/
theorem all_prompt_stats_agree (evs : List Event) (fn : String)
    (hmal : ∀ e ∈ evs, e.event = "feedback_given" → ¬ e.meta = some Blob.malformed)
    (hpos : ∀ e ∈ evs, e.event = "feedback_given" → ∀ q, ratingOf e = some q → 1 ≤ q)
    (hrel : ∃ e ∈ evs, e.prompt_filename = some fn ∧
      (e.event = "prompt_applied" ∨ e.event = "prompt_edited" ∨
       (e.event = "feedback_given" ∧ (ratingOf e).isSome))) :
    lookupStat (get_all_prompt_stats (some evs)) fn =
      some (get_prompt_stats (some evs) fn) := by
  have hsome : ∀ e ∈ fbRows evs fn, (jsonExtractRating e.meta).isSome := by
    intro e he
    obtain ⟨hevs, hcond⟩ := List.mem_filter.mp he
    simp only [Bool.and_eq_true, beq_iff_eq] at hcond
    exact jsonExtract_isSome (hmal e hevs hcond.1)
  have hps : get_prompt_stats (some evs) fn = promptStatsPure evs fn := by
    show (promptStatsBody evs fn).getD emptyStats = _
    rw [promptStatsBody_eq_pure evs fn hsome]
    rfl
  have hvals : ∀ q ∈ ratingValsOf evs fn, 1 ≤ q := by
    intro q hq
    obtain ⟨e, he, heq⟩ := List.mem_filterMap.mp hq
    obtain ⟨hevs, hcond⟩ := List.mem_filter.mp he
    simp only [Bool.and_eq_true, beq_iff_eq] at hcond
    exact hpos e hevs hcond.1 q heq
  have hval : traverseO (fun e => jsonExtractRating e.meta)
      (evs.filter (fun e => e.event == "feedback_given" && e.prompt_filename.isSome))
      = some ((evs.filter
          (fun e => e.event == "feedback_given" && e.prompt_filename.isSome)).filterMap
          (fun e => jsonExtractRating e.meta)) := by
    apply traverseO_all_some
    intro e he
    obtain ⟨hevs, hcond⟩ := List.mem_filter.mp he
    simp only [Bool.and_eq_true, beq_iff_eq] at hcond
    exact jsonExtract_isSome (hmal e hevs hcond.1)
  have hwrap : get_all_prompt_stats (some evs) =
      (projRows evs).foldl (fun m r => setStat m r.1 (projUpd r.2))
        ((editFns evs).foldl (fun m k => setStat m k (editUpd evs k))
          ((ratingFns evs).foldl (fun m k => setStat m k (ratingUpd evs k))
            ((appliedFns evs).foldl (fun m k => setStat m k (applyUpd evs k)) []))) := by
    show (allStatsBody evs).getD [] = _
    unfold allStatsBody
    rw [hval]
    rfl
  rw [hwrap, hps, lookupStat_foldl_proj,
    lookupStat_foldl_setStat (editUpd evs) (editFns evs) _ fn (nodup_distinctL _),
    lookupStat_foldl_setStat (ratingUpd evs) (ratingFns evs) _ fn (nodup_distinctL _),
    lookupStat_foldl_setStat (applyUpd evs) (appliedFns evs) _ fn (nodup_distinctL _),
    rowsFor_projRows]
  by_cases hA : fn ∈ appliedFns evs <;> by_cases hR : fn ∈ ratingFns evs <;>
    by_cases hE : fn ∈ editFns evs
  · have hne := avg_ne_zero hvals (ratingVals_ne_nil hR)
    have hlen0 : ¬ (ratingValsOf evs fn).length = 0 := by
      simpa [List.length_eq_zero] using ratingVals_ne_nil hR
    simp [hA, hR, hE, lookupStat, applyUpd, ratingUpd, editUpd, emptyStats,
      promptStatsPure, hne, hlen0, distinctL]
  · have hne := avg_ne_zero hvals (ratingVals_ne_nil hR)
    have hlen0 : ¬ (ratingValsOf evs fn).length = 0 := by
      simpa [List.length_eq_zero] using ratingVals_ne_nil hR
    simp [hA, hR, hE, lookupStat, applyUpd, ratingUpd, editUpd, emptyStats,
      promptStatsPure, hne, hlen0, distinctL, editRows_eq_nil hE]
  · have hrs0 := ratingVals_eq_nil hR
    simp [hA, hR, hE, lookupStat, applyUpd, ratingUpd, editUpd, emptyStats,
      promptStatsPure, hrs0, distinctL]
  · have hrs0 := ratingVals_eq_nil hR
    simp [hA, hR, hE, lookupStat, applyUpd, ratingUpd, editUpd, emptyStats,
      promptStatsPure, hrs0, distinctL, editRows_eq_nil hE]
  · have hne := avg_ne_zero hvals (ratingVals_ne_nil hR)
    have hlen0 : ¬ (ratingValsOf evs fn).length = 0 := by
      simpa [List.length_eq_zero] using ratingVals_ne_nil hR
    have happ0 := appliedRows_eq_nil hA
    simp [hA, hR, hE, lookupStat, applyUpd, ratingUpd, editUpd, emptyStats,
      promptStatsPure, hne, hlen0, distinctL, happ0, cntApplied, lastApplied,
      projsOf, maxTs]
  · have hne := avg_ne_zero hvals (ratingVals_ne_nil hR)
    have hlen0 : ¬ (ratingValsOf evs fn).length = 0 := by
      simpa [List.length_eq_zero] using ratingVals_ne_nil hR
    have happ0 := appliedRows_eq_nil hA
    simp [hA, hR, hE, lookupStat, applyUpd, ratingUpd, editUpd, emptyStats,
      promptStatsPure, hne, hlen0, distinctL, happ0, cntApplied, lastApplied,
      projsOf, maxTs, editRows_eq_nil hE]
  · have hrs0 := ratingVals_eq_nil hR
    have happ0 := appliedRows_eq_nil hA
    simp [hA, hR, hE, lookupStat, applyUpd, ratingUpd, editUpd, emptyStats,
      promptStatsPure, hrs0, distinctL, happ0, cntApplied, lastApplied,
      projsOf, maxTs]
  · exfalso
    obtain ⟨e, hevs, hpf, hkind⟩ := hrel
    rcases hkind with hk | hk | ⟨hk, hrt⟩
    · exact hA (mem_appliedFns.mpr ⟨e, hevs, hk, hpf⟩)
    · exact hE (mem_editFns.mpr ⟨e, hevs, hk, hpf⟩)
    · exact hR (mem_ratingFns.mpr ⟨e, hevs, hk, hpf, hrt⟩)

/-- Witness for the amended C7 at a concrete log exercising all four
aggregation loops for one prompt. -/
theorem all_prompt_stats_agree_witness :
    lookupStat (get_all_prompt_stats (some c7WLog)) "p.md" =
      some (get_prompt_stats (some c7WLog) "p.md") := by
  refine all_prompt_stats_agree c7WLog "p.md" (by decide) ?_ ?_
  · intro e he hev q hq
    simp only [c7WLog, List.mem_cons, List.not_mem_nil, or_false] at he
    rcases he with rfl | rfl | rfl | rfl
    · exact absurd hev (by decide)
    · exact absurd hev (by decide)
    · have hq' : some (3 : ℚ) = some q := hq
      injection hq' with h
      rw [← h]
      norm_num
    · exact absurd hev (by decide)
  · refine ⟨{ timestamp := "2026-01-01T00:00:00", event := "prompt_applied",
              prompt_filename := some "p.md", project_path := some "/proj/a",
              meta := none }, ?_, rfl, Or.inl rfl⟩
    decide
